import Mathlib

/-!
Shallow embedding of the fixed-element-size memory pool in `src/mpool.c`
(together with its header, found among the unnamed sources), verified
against the natural-language specification.

Modelling conventions:
* The 64-bit branch of the C source is modelled (`UINTPTR_MAX > 4294967295U`),
  so a machine word is 8 bytes, `sizeof (union mpoolnode) = 24`
  (a two-pointer `struct llist` plus a `size_t`) and
  `sizeof (struct mpoolcluster) = 16` (one `struct llist` header).
* Machine integers (`size_t`) are modelled as `Nat`.  All counter updates in
  the source are small increments/decrements that stay far from 2^64 in every
  scenario considered here, so no wrap-around is modelled; `Nat` subtraction
  is used where the C decrements (the decrement sites are reached only with a
  positive counter in the modelled traces and theorems).
* A cluster's bitmap (an array of `uintptr_t` words, one bit per slot) is
  modelled as a single `Nat` used as a bitset; `bitmap[quot] |= 1<<rem` is
  `b ||| (1 <<< index)` and `bitmap[quot] &= ~(1<<rem)` clears the bit.
* The intrusive `llist` library (`llist.h`) is not among the sources; its
  primitives (`llist_init`, `llist_insert_head`, `llist_insert_tail`,
  `llist_unlink_fast_`, `llist_find`/`llist_ufind`, `llist_is_empty`) are
  modelled from the spec's description ("intrusive doubly-linked list
  primitive with init-node, insert-at-head, insert-at-tail, unlink-fast,
  membership-search with custom comparator, is-empty, ...") as Lean lists:
  a list of cluster ids for the cluster chain and lists of node references
  for the free-list buckets, with head = front of the list, searches
  returning the first match in list order, and unlink removing the node.
* A free slot's in-place overlay (`union mpoolnode`) is modelled by the
  record `SlotMem`.  The `firstfree.node` llist links are represented by
  bucket membership (see above); since those two pointers overlap
  `lastfree.first`/`lastfree.null` in the union, `llist_init` on a slot
  overwrites the null sentinel with a non-null pointer, modelled by setting
  `lastNull := false` (the aliased `lastFirst` bytes become a don't-care
  that no code path of this file reads afterwards).
* Clusters are identified by ids (allocation order); the id's memory is in
  `store`.  `malloc` outcomes are passed in explicitly as `Option Nat`
  (`some base` = a fresh block at that address, `none` = exhaustion), so a
  theorem can quantify over acquisition failure.  Base addresses of
  distinct live clusters are assumed non-overlapping (as `malloc`
  guarantees); inside `mpool_alloc_far` the owning cluster of a free-list
  node is therefore taken from the node reference itself, where the C code
  re-derives it by address range and asserts success.
* `assert` failures (fatal misuse per the spec) set the `assertFailed` flag
  and abort the operation, mirroring an `abort()` under `#undef NDEBUG`.
* Instrumentation fields that the C state does not carry but the claims
  quantify over: `live` (slots handed out by `mpool_alloc` and not yet
  freed), `released` (clusters returned to the host heap), `finalized`
  (slots passed to the destructor), `acquireAttempts` (number of times the
  pool consulted `malloc` for a new cluster).  No operation reads them.
-/

namespace Mpool

/-- Bytes per machine word (64-bit build: `sizeof(uintptr_t) = sizeof(void*) = 8`). -/
def wordSize : Nat := 8

/-- Bits per machine word. -/
def wordBits : Nat := 64

/-- `sizeof (union mpoolnode)`: `firstfree` = two-pointer llist node + `size_t`. -/
def mpoolnodeSize : Nat := 24

/-- `sizeof (struct mpoolcluster)`: one two-pointer llist node (`char data[]` adds nothing). -/
def clusterHeaderSize : Nat := 16

/-- `#define MPOOL_BUCKETS 8` from the header. -/
def MPOOL_BUCKETS : Nat := 8

/-- `MPOOL_BITMAP_SIZE(n) = ((n + sizeof(uintptr_t)*CHAR_BIT - 1) / (sizeof(uintptr_t)*CHAR_BIT)) * sizeof(uintptr_t)` (bytes). -/
def MPOOL_BITMAP_SIZE (elements_per_cluster : Nat) : Nat :=
  (elements_per_cluster + wordSize * 8 - 1) / (wordSize * 8) * wordSize

/-- `bitmap[quot] |= (1 << rem)` over the whole bitmap viewed as one bitset. -/
def natSetBit (b i : Nat) : Nat := b ||| (1 <<< i)

/-- `bitmap[quot] &= ~(1 << rem)` over the whole bitmap viewed as one bitset. -/
def natClearBit (b i : Nat) : Nat := if b.testBit i then b - (1 <<< i) else b

/-- Content of one slot's `union mpoolnode` overlay.  `nelements` is the
`firstfree.nelements` word; `lastNull = true` means the `lastfree.null`
sentinel word currently holds `NULL`; `lastFirst` is the slot index the
`lastfree.first` backpointer designates (within the same cluster). -/
structure SlotMem where
  nelements : Nat := 0
  lastFirst : Nat := 0
  lastNull : Bool := false
deriving Repr, DecidableEq, Inhabited

/-- `struct mpoolcluster`: its base address, its bitmap words (as one bitset)
and the slot array (total function; indices `≥ elements_per_cluster` unused). -/
structure MPoolcluster where
  base : Nat
  bitmap : Nat
  slots : Nat → SlotMem

/-- `struct mpool` (header), plus cluster storage and instrumentation. -/
structure MPool where
  /-- `struct llist freelists[MPOOL_BUCKETS]`: bucket index ↦ node references
  `(cluster id, slot index)` in list order (head first). -/
  freelists : Nat → List (Nat × Nat)
  /-- `struct llist clusters`: cluster ids, head of the C list first. -/
  clusters : List Nat
  /-- `MPoolcluster linger_cluster` — declared in the header, never accessed
  by any function in `mpool.c` (only a TODO comment in `mpool_reserve`). -/
  linger_cluster : Option Nat
  elem_size : Nat
  elements_per_cluster : Nat
  cluster_size : Nat
  elements_free : Nat
  clusters_allocated : Nat
  /-- `mpool_destroy_fn destroy` — an opaque token, `none` = `NULL`. -/
  dtor : Option Nat
  /-- Memory: cluster id ↦ its contents; `none` after release. -/
  store : Nat → Option MPoolcluster
  /-- Next fresh cluster id. -/
  nextId : Nat
  /-- Instrumentation: number of `malloc` consultations for a new cluster. -/
  acquireAttempts : Nat
  /-- Instrumentation: cluster ids returned to the host heap. -/
  released : List Nat
  /-- Instrumentation: slots returned by `mpool_alloc` and not yet freed. -/
  live : List (Nat × Nat)
  /-- Instrumentation: slots handed to the destructor callback. -/
  finalized : List (Nat × Nat)
  /-- Instrumentation: an `assert` fired. -/
  assertFailed : Bool

/-- The all-zero `struct mpool` (plus empty instrumentation) used as the
memory `mpool_init` is applied to in concrete traces. -/
def emptyPool : MPool where
  freelists := fun _ => []
  clusters := []
  linger_cluster := none
  elem_size := 0
  elements_per_cluster := 0
  cluster_size := 0
  elements_free := 0
  clusters_allocated := 0
  dtor := none
  store := fun _ => none
  nextId := 0
  acquireAttempts := 0
  released := []
  live := []
  finalized := []
  assertFailed := false

/-- Update the memory of cluster `cid` in place. -/
def updateCluster (st : MPool) (cid : Nat) (f : MPoolcluster → MPoolcluster) : MPool :=
  { st with store := fun j => if j = cid then (st.store j).map f else st.store j }

/-- Update one slot of cluster `cid` in place. -/
def updateSlot (st : MPool) (cid idx : Nat) (f : SlotMem → SlotMem) : MPool :=
  updateCluster st cid fun c => { c with slots := fun j => if j = idx then f (c.slots j) else c.slots j }

/-- Read a slot through a node reference (freed cluster memory reads as junk). -/
def getSlot (st : MPool) (r : Nat × Nat) : SlotMem :=
  match st.store r.1 with
  | some c => c.slots r.2
  | none => default

/-- `cluster_element_setbit` (the index is already computed from the address). -/
def setBitAt (st : MPool) (cid idx : Nat) : MPool :=
  updateCluster st cid fun c => { c with bitmap := natSetBit c.bitmap idx }

/-- `cluster_element_clearbit (cluster, self, element, offset)`: clears bit `idx + off`. -/
def clearBitAt (st : MPool) (cid idx off : Nat) : MPool :=
  updateCluster st cid fun c => { c with bitmap := natClearBit c.bitmap (idx + off) }

/-- `llist_init (&node->firstfree.node)` on a slot: the two written pointers
overlay `lastfree.first`/`lastfree.null`, so the null sentinel is destroyed. -/
def llistInitSlot (st : MPool) (cid idx : Nat) : MPool :=
  updateSlot st cid idx fun s => { s with lastNull := false }

/-- `node->firstfree.nelements = v`. -/
def setNelements (st : MPool) (cid idx v : Nat) : MPool :=
  updateSlot st cid idx fun s => { s with nelements := v }

/-- `last->lastfree.null = NULL`. -/
def setLastNullTrue (st : MPool) (cid idx : Nat) : MPool :=
  updateSlot st cid idx fun s => { s with lastNull := true }

/-- `last->lastfree.first = first` (recorded as the first slot's index). -/
def setLastFirst (st : MPool) (cid idx firstIdx : Nat) : MPool :=
  updateSlot st cid idx fun s => { s with lastFirst := firstIdx }

/-- Rewrite one free-list bucket. -/
def updateBucket (st : MPool) (i : Nat) (f : List (Nat × Nat) → List (Nat × Nat)) : MPool :=
  { st with freelists := fun j => if j = i then f (st.freelists j) else st.freelists j }

/-- `llist_insert_tail (&self->freelists[i], node)`. -/
def bucketPushTail (st : MPool) (i : Nat) (r : Nat × Nat) : MPool :=
  updateBucket st i (fun l => l ++ [r])

/-- `llist_unlink_fast_ (node)` for a node known to sit in bucket `i`. -/
def bucketUnlink (st : MPool) (i : Nat) (r : Nat × Nat) : MPool :=
  updateBucket st i (fun l => l.erase r)

/-- The bucket-selection loop of `mpool_freellist_insert`:
`while (1U<<i < nelements && i < MPOOL_BUCKETS-1) ++i;`
(fuel-indexed; `MPOOL_BUCKETS - 1` steps from `i = 0` are exactly enough
because the guard stops at `i = MPOOL_BUCKETS - 1`). -/
def freellistBucketLoop (L : Nat) : Nat → Nat → Nat
  | 0, i => i
  | fuel + 1, i =>
    if 1 <<< i < L ∧ i < MPOOL_BUCKETS - 1 then freellistBucketLoop L fuel (i + 1) else i

/-- Bucket index chosen by `mpool_freellist_insert` for run length `L`. -/
def freellistBucket (L : Nat) : Nat := freellistBucketLoop L (MPOOL_BUCKETS - 1) 0

/-- `mpool_freellist_insert (self, node)`:
selects the bucket from `node->firstfree.nelements`, then
`llist_insert_tail (&self->freelists[i], llist_init (&node->firstfree.node))`. -/
def mpool_freellist_insert (st : MPool) (r : Nat × Nat) : MPool :=
  let i := freellistBucket (getSlot st r).nelements
  bucketPushTail (llistInitSlot st r.1 r.2) i r

/-- `cluster_get_element (cluster, self, n)`: address of slot `n`. -/
def cluster_get_element (st : MPool) (c : MPoolcluster) (n : Nat) : Nat :=
  c.base + clusterHeaderSize + MPOOL_BITMAP_SIZE st.elements_per_cluster + st.elem_size * n

/-- Index of an element address inside a cluster:
`(element - begin_of_elements) / elem_size` (as in `cluster_element_clearbit`). -/
def element_index (st : MPool) (c : MPoolcluster) (addr : Nat) : Nat :=
  (addr - (c.base + clusterHeaderSize + MPOOL_BITMAP_SIZE st.elements_per_cluster)) / st.elem_size

/-- `cmp_cluster_contains_element`: reports containment iff
`cluster ≤ element` and NOT `element > cluster + cluster_size`, i.e. the
closed byte range `[base, base + cluster_size]` (note the C uses `>`, not `>=`). -/
def cluster_contains_element (st : MPool) (c : MPoolcluster) (addr : Nat) : Bool :=
  decide (c.base ≤ addr) && decide (addr ≤ c.base + st.cluster_size)

/-- `mpool_element_get_cluster`: `llist_ufind` over the cluster list with
`cmp_cluster_contains_element` — first cluster in list order containing the address. -/
def mpool_element_get_cluster (st : MPool) (addr : Nat) : Option Nat :=
  st.clusters.find? fun cid =>
    match st.store cid with
    | some c => cluster_contains_element st c addr
    | none => false

/-- `mpool_cluster_alloc (self)`.  `mem` is the `malloc (self->cluster_size)`
outcome.  Returns `(success, state)`; on `malloc` failure the pool is
unchanged except for the attempt instrumentation. -/
def mpool_cluster_alloc (st0 : MPool) (mem : Option Nat) : Bool × MPool :=
  let st := { st0 with acquireAttempts := st0.acquireAttempts + 1 }
  match mem with
  | none => (false, st)
  | some base =>
    let epc := st.elements_per_cluster
    let cid := st.nextId
    -- fresh block; `memset (&cluster->data, 0, MPOOL_BITMAP_SIZE (...))`
    let st := { st with
      store := fun j => if j = cid then some { base := base, bitmap := 0, slots := fun _ => default }
                        else st.store j,
      nextId := cid + 1 }
    -- cluster_element_setbit (first); cluster_element_setbit (last)
    let st := setBitAt st cid 0
    let st := setBitAt st cid (epc - 1)
    -- last->lastfree.null = NULL; last->lastfree.first = first
    let st := setLastNullTrue st cid (epc - 1)
    let st := setLastFirst st cid (epc - 1) 0
    -- llist_init (&first->firstfree.node); first->firstfree.nelements = epc
    let st := llistInitSlot st cid 0
    let st := setNelements st cid 0 epc
    let st := mpool_freellist_insert st (cid, 0)
    let st := { st with elements_free := st.elements_free + epc }
    -- llist_insert_head (&self->clusters, llist_init (&cluster->node)); ++clusters_allocated
    let st := { st with clusters := cid :: st.clusters,
                        clusters_allocated := st.clusters_allocated + 1 }
    (true, st)

/-- The bucket-scan loop of `mpool_alloc_far`:
`while ((1U<<i < n || llist_is_empty (&self->freelists[i])) && i < MPOOL_BUCKETS-1) ++i;`. -/
def allocFarBucketLoop (st : MPool) (n : Nat) : Nat → Nat → Nat
  | 0, i => i
  | fuel + 1, i =>
    if (1 <<< i < n ∨ (st.freelists i).isEmpty) ∧ i < MPOOL_BUCKETS - 1 then
      allocFarBucketLoop st n fuel (i + 1)
    else i

/-- Bucket index at which `mpool_alloc_far` starts its search. -/
def allocFarBucket (st : MPool) (n : Nat) : Nat :=
  allocFarBucketLoop st n (MPOOL_BUCKETS - 1) 0

/-- `mpool_alloc_far (self, n)`.  Returns the chosen first-slot node reference
(or `none`) and the new state.  The C code re-derives the owning cluster of
the found node by address range (`mpool_element_get_cluster` + `assert`);
since live cluster address ranges are disjoint, the reference's own cluster
id is used directly here. -/
def mpool_alloc_far (st0 : MPool) (n : Nat) : Option (Nat × Nat) × MPool :=
  let i := allocFarBucket st0 n
  -- llist_find (..., find_larger_or_equal, n): first node with nelements >= n
  match (st0.freelists i).find? (fun r => decide (n ≤ (getSlot st0 r).nelements)) with
  | none => (none, st0)
  | some r =>
    let st := bucketUnlink st0 i r
    let cid := r.1
    let start := r.2
    let L := (getSlot st r).nelements
    let st := clearBitAt st cid start 0
    if n < L then
      -- split chunkstart and reinsert the rest
      let nstart := start + n
      let st := llistInitSlot st cid nstart
      let st := setNelements st cid nstart (L - n)
      let st := setBitAt st cid nstart
      let st :=
        if 1 < L - n then
          -- chunkend = chunkstart + elem_size * nchunk->nelements
          let cend := start + (L - n)
          -- assert (chunkend->lastfree.null == NULL)
          let st := if (getSlot st (cid, cend)).lastNull then st
                    else { st with assertFailed := true }
          setLastFirst st cid cend nstart
        else st
      (some r, mpool_freellist_insert st (cid, nstart))
    else
      -- assert (chunkstart->firstfree.nelements == n)
      let st := if L = n then st else { st with assertFailed := true }
      let st := if 1 < n then clearBitAt st cid start (n - 1) else st
      (some r, st)

/-- The tail of `mpool_alloc` after the new-cluster block: the `near` path is
compiled out (`#if 0`), so `node = mpool_alloc_far (self, 1);
if (node) --self->elements_free; return node;`.  On success the returned
value is the element's address. -/
def mpool_alloc_tail (st0 : MPool) : Option Nat × MPool :=
  let fr := mpool_alloc_far st0 1
  match fr.1 with
  | none => (none, fr.2)
  | some r =>
    let addr := match fr.2.store r.1 with
      | some c => cluster_get_element fr.2 c r.2
      | none => 0
    (some addr, { fr.2 with elements_free := fr.2.elements_free - 1, live := fr.2.live ++ [r] })

/-- `mpool_alloc (self, near)`.  `mem` is the `malloc` outcome consulted if a
new cluster is attempted. -/
def mpool_alloc (st0 : MPool) (near : Option Nat) (mem : Option Nat) : Option Nat × MPool :=
  if st0.elements_free = 0 ∨ (near = none ∧ st0.elements_free < st0.elements_per_cluster / 2) then
    let ca := mpool_cluster_alloc st0 mem
    if ca.1 then mpool_alloc_tail ca.2   -- near = NULL; the near path is compiled out anyway
    else if ca.2.elements_free = 0 then (none, ca.2)
    else mpool_alloc_tail ca.2
  else
    mpool_alloc_tail st0

/-- Body of `mpool_free (self, element)` once `self` and `element` are
non-null: locate the cluster by address range (`assert (cluster)`), clear the
element's bit, `llist_init` its node and append it to bucket 0 (`//TODO:
coalesce` — no coalescing, no run length written, no linger handling),
increment the free counter and null the caller's reference. -/
def mpool_free_go (st0 : MPool) (addr : Nat) : MPool :=
  match mpool_element_get_cluster st0 addr with
  | none => { st0 with assertFailed := true }   -- assert(cluster): address not in pool
  | some cid =>
    let idx := match st0.store cid with
      | some c => element_index st0 c addr
      | none => 0
    let st := clearBitAt st0 cid idx 0
    let st := llistInitSlot st cid idx
    let st := bucketPushTail st 0 (cid, idx)
    { st with elements_free := st.elements_free + 1,
              live := st.live.erase (cid, idx) }

/-- `mpool_free (self, element)` including the `if (self && element)` guard:
`element` is the `void**` reference (`none` = `NULL` reference). -/
def mpool_free_opt (self : Option MPool) (element : Option Nat) : Option MPool :=
  match self, element with
  | some st, some addr => some (mpool_free_go st addr)
  | some st, none => some st
  | none, _ => none

/-- `mpool_init (self, elem_size, elements_per_cluster, dtor)` body for a
non-null `self`: note `linger_cluster` (and the cluster storage) is left
untouched — the C function never writes it. -/
def mpool_init (st : MPool) (elem_size elements_per_cluster : Nat) (d : Option Nat) : MPool :=
  let e1 := if elem_size < mpoolnodeSize then mpoolnodeSize else elem_size
  let es := (e1 + wordSize - 1) / wordSize * wordSize
  { st with
    freelists := fun _ => []
    clusters := []
    elem_size := es
    elements_per_cluster := elements_per_cluster
    cluster_size := clusterHeaderSize + MPOOL_BITMAP_SIZE elements_per_cluster
      + es * elements_per_cluster
    elements_free := 0
    clusters_allocated := 0
    dtor := d }

/-- `mpool_init` including the `if (self)` guard. -/
def mpool_init_opt (self : Option MPool) (elem_size epc : Nat) (d : Option Nat) : Option MPool :=
  self.map fun st => mpool_init st elem_size epc d

/-- The destructor walk of `mpool_destroy` over one cluster:
`isfree` starts as bit 0; the index loop starts at `i = isfree` (a bool used
as an index); every set bit flips `isfree`; the destructor runs on indices
whose bit is clear while `isfree` is false. -/
def clusterFinalizeIndices (bitmap epc : Nat) : List Nat :=
  let isfree0 := bitmap.testBit 0
  let start := if isfree0 then 1 else 0
  (((List.range epc).drop start).foldl
    (fun (p : Bool × List Nat) i =>
      if bitmap.testBit i then (!p.1, p.2)
      else if !p.1 then (p.1, p.2 ++ [i])
      else p)
    (isfree0, [])).2

/-- `mpool_destroy` body for a non-null `self`: walk the clusters from the
list tail (oldest first), run the destructor on live runs if one is set,
unlink and release every cluster, reinitialise the buckets and zero the
counters.  `linger_cluster`, `elem_size`, `elements_per_cluster`,
`cluster_size` and `dtor` are untouched, as in the C. -/
def mpool_destroy (st : MPool) : MPool :=
  let ids := st.clusters.reverse
  let fin :=
    if st.dtor.isSome then
      ids.foldl (fun acc cid =>
        match st.store cid with
        | some c => acc ++ (clusterFinalizeIndices c.bitmap st.elements_per_cluster).map
            (fun i => (cid, i))
        | none => acc) []
    else []
  { st with
    clusters := []
    freelists := fun _ => []
    elements_free := 0
    clusters_allocated := 0
    store := fun j => if j ∈ ids then none else st.store j
    released := st.released ++ ids
    finalized := st.finalized ++ fin }

/-- `mpool_destroy` including the `if (self)` guard. -/
def mpool_destroy_opt (self : Option MPool) : Option MPool :=
  self.map mpool_destroy

/-- Result of `mpool_reserve`: `ok` = returned `self`, `failed` = returned
`NULL` after a cluster allocation failed (the state keeps all partial
progress), `outOfMem` = the supplied list of `malloc` outcomes was exhausted
while the loop still wanted another cluster (the C loop would consult
`malloc` again; a finite outcome list models any finite behaviour prefix). -/
inductive ReserveResult where
  | ok (st : MPool)
  | failed (st : MPool)
  | outOfMem (st : MPool)

/-- `mpool_reserve (self, nelements)` body for a non-null `self`:
`while (self->elements_free < nelements) if (!mpool_cluster_alloc (self)) return NULL;`. -/
def mpool_reserve (n : Nat) : MPool → List (Option Nat) → ReserveResult
  | st, mems =>
    if st.elements_free < n then
      match mems with
      | [] => .outOfMem st
      | m :: rest =>
        let ca := mpool_cluster_alloc st m
        if ca.1 then mpool_reserve n ca.2 rest else .failed ca.2
    else .ok st

/-- `mpool_reserve` including the `if (self)` guard (`none` = returned `NULL`
without touching anything). -/
def mpool_reserve_opt (self : Option MPool) (n : Nat) (mems : List (Option Nat)) :
    Option ReserveResult :=
  self.map fun st => mpool_reserve n st mems

/-- `mpool_available (self) = self->elements_free` (inline in the header). -/
def mpool_available (st : MPool) : Nat := st.elements_free

/-! ## Derived views and spec-side definitions -/

/-- Bitmap of a cluster by id (0 for an id with no memory). -/
def clusterBitmap (st : MPool) (cid : Nat) : Nat :=
  match st.store cid with
  | some c => c.bitmap
  | none => 0

/-- A slot is free in the allocation-trace sense iff it is not live (was not
handed out by `mpool_alloc` without being freed since). -/
def ghostFreeSlot (st : MPool) (cid i : Nat) : Bool :=
  decide ((cid, i) ∉ st.live)

/-- Slot `i` is the first slot of a maximal free run (under freeness predicate `f`). -/
def isRunFirst (f : Nat → Bool) (i : Nat) : Bool :=
  f i && (decide (i = 0) || !f (i - 1))

/-- Slot `i` is the last slot of a maximal free run. -/
def isRunLast (f : Nat → Bool) (epc i : Nat) : Bool :=
  f i && (decide (i + 1 = epc) || !f (i + 1))

/-- Follows the spec's words: the bitmap whose set bits are exactly the
indices that are the first slot or the last slot of a maximal free run. -/
def claimEndpointBitmap (f : Nat → Bool) (epc : Nat) : Nat :=
  (List.range epc).foldl
    (fun b i => if isRunFirst f i || isRunLast f epc i then natSetBit b i else b) 0

/-- Follows the claim's words for `mpool_init`: `elem_size` rounded up to the
larger of (a) the machine-word-aligned size of the free-slot overlay and
(b) the next multiple of machine-word alignment. -/
def spec_elem_size (e : Nat) : Nat :=
  max ((mpoolnodeSize + wordSize - 1) / wordSize * wordSize)
      ((e + wordSize - 1) / wordSize * wordSize)

/-- Follows the claim's words: `bitmap_bytes(n) = ceil(n / word_bits) * word_size`. -/
def spec_bitmap_bytes (n : Nat) : Nat := (n + wordBits - 1) / wordBits * wordSize

/-- Follows the claim's words:
`cluster_size = header_size + bitmap_bytes(slots_per_cluster) + rounded_elem_size * slots_per_cluster`. -/
def spec_cluster_size (e epc : Nat) : Nat :=
  clusterHeaderSize + spec_bitmap_bytes epc + spec_elem_size e * epc

/-- Follows the claim's words for the Cluster lookup: an address is attributed
to a Cluster iff it lies in the HALF-OPEN range `[base, base + cluster_size)`. -/
def specHalfOpenGetCluster (st : MPool) (addr : Nat) : Option Nat :=
  st.clusters.find? fun cid =>
    match st.store cid with
    | some c => decide (c.base ≤ addr) && decide (addr < c.base + st.cluster_size)
    | none => false

/-! ## Concrete traces

Element size 16 is used throughout (as in the repository's own tests), which
`mpool_init` rounds up to 24 = `sizeof (union mpoolnode)`. -/

/-- Two slots per cluster; allocate one element, then free it. -/
def trC1 : MPool :=
  let s0 := mpool_init emptyPool 16 2 none
  let a1 := mpool_alloc s0 none (some 1000)
  mpool_free_go a1.2 (a1.1.getD 0)

/-- The claim-C2 scenario: `slots_per_cluster = 32000`;
`alloc(no hint) → e1; alloc(no hint) → e2; free(e2); free(e1)`. -/
def trC2 : MPool :=
  let s0 := mpool_init emptyPool 16 32000 none
  let a1 := mpool_alloc s0 none (some 1000)
  let a2 := mpool_alloc a1.2 none none
  let s3 := mpool_free_go a2.2 (a2.1.getD 0)
  mpool_free_go s3 (a1.1.getD 0)

/-- One slot per cluster; allocate the slot, then free it: the free
restores the cluster to entirely-free. -/
def trC3 : MPool :=
  let s0 := mpool_init emptyPool 16 1 none
  let a1 := mpool_alloc s0 none (some 500)
  mpool_free_go a1.2 (a1.1.getD 0)

/-- Four slots per cluster; one allocation splits the initial run of length 4
into an allocated slot and a reinserted run of length 3. -/
def trC5 : MPool :=
  (mpool_alloc (mpool_init emptyPool 16 4 none) none (some 700)).2

/-- One cluster of one slot at base address 500 (`cluster_size = 48`). -/
def trC7 : MPool :=
  (mpool_alloc (mpool_init emptyPool 16 1 none) none (some 500)).2

/-! ## Helper lemmas -/

set_option maxRecDepth 8192

theorem pow_two_eq_shiftLeft (n : Nat) : (2 : Nat) ^ n = 1 <<< n := by
  simp [Nat.shiftLeft_eq]

theorem mpool_free_go_preserved (st : MPool) (addr : Nat) :
    (mpool_free_go st addr).linger_cluster = st.linger_cluster
    ∧ (mpool_free_go st addr).released = st.released
    ∧ (mpool_free_go st addr).clusters = st.clusters
    ∧ (mpool_free_go st addr).clusters_allocated = st.clusters_allocated
    ∧ (mpool_free_go st addr).acquireAttempts = st.acquireAttempts
    ∧ (mpool_free_go st addr).elements_per_cluster = st.elements_per_cluster := by
  unfold mpool_free_go
  cases mpool_element_get_cluster st addr <;>
    simp [bucketPushTail, updateBucket, llistInitSlot, updateSlot, updateCluster, clearBitAt]

theorem MPOOL_BITMAP_SIZE_eq_spec (n : Nat) : MPOOL_BITMAP_SIZE n = spec_bitmap_bytes n := rfl

theorem mpool_cluster_alloc_none (st : MPool) :
    mpool_cluster_alloc st none = (false, { st with acquireAttempts := st.acquireAttempts + 1 }) :=
  rfl

theorem mpool_cluster_alloc_some_spec (st : MPool) (b : Nat) :
    (mpool_cluster_alloc st (some b)).1 = true
    ∧ (mpool_cluster_alloc st (some b)).2.clusters = st.nextId :: st.clusters
    ∧ (mpool_cluster_alloc st (some b)).2.elements_free
        = st.elements_free + st.elements_per_cluster
    ∧ (mpool_cluster_alloc st (some b)).2.clusters_allocated = st.clusters_allocated + 1
    ∧ (mpool_cluster_alloc st (some b)).2.elements_per_cluster = st.elements_per_cluster
    ∧ (mpool_cluster_alloc st (some b)).2.released = st.released
    ∧ (mpool_cluster_alloc st (some b)).2.live = st.live
    ∧ (mpool_cluster_alloc st (some b)).2.linger_cluster = st.linger_cluster
    ∧ (mpool_cluster_alloc st (some b)).2.acquireAttempts = st.acquireAttempts + 1
    ∧ (mpool_cluster_alloc st (some b)).2.nextId = st.nextId + 1 := by
  unfold mpool_cluster_alloc mpool_freellist_insert bucketPushTail updateBucket llistInitSlot
    setNelements setLastFirst setLastNullTrue setBitAt updateSlot updateCluster
  simp

theorem ca_some_fst (st : MPool) (b : Nat) : (mpool_cluster_alloc st (some b)).1 = true :=
  (mpool_cluster_alloc_some_spec st b).1

theorem ca_some_clusters (st : MPool) (b : Nat) :
    (mpool_cluster_alloc st (some b)).2.clusters = st.nextId :: st.clusters :=
  (mpool_cluster_alloc_some_spec st b).2.1

theorem ca_some_free (st : MPool) (b : Nat) :
    (mpool_cluster_alloc st (some b)).2.elements_free
      = st.elements_free + st.elements_per_cluster :=
  (mpool_cluster_alloc_some_spec st b).2.2.1

theorem ca_some_ca (st : MPool) (b : Nat) :
    (mpool_cluster_alloc st (some b)).2.clusters_allocated = st.clusters_allocated + 1 :=
  (mpool_cluster_alloc_some_spec st b).2.2.2.1

theorem ca_some_epc (st : MPool) (b : Nat) :
    (mpool_cluster_alloc st (some b)).2.elements_per_cluster = st.elements_per_cluster :=
  (mpool_cluster_alloc_some_spec st b).2.2.2.2.1

theorem ca_some_released (st : MPool) (b : Nat) :
    (mpool_cluster_alloc st (some b)).2.released = st.released :=
  (mpool_cluster_alloc_some_spec st b).2.2.2.2.2.1

theorem ca_some_linger (st : MPool) (b : Nat) :
    (mpool_cluster_alloc st (some b)).2.linger_cluster = st.linger_cluster :=
  (mpool_cluster_alloc_some_spec st b).2.2.2.2.2.2.2.1

theorem ca_some_attempts (st : MPool) (b : Nat) :
    (mpool_cluster_alloc st (some b)).2.acquireAttempts = st.acquireAttempts + 1 :=
  (mpool_cluster_alloc_some_spec st b).2.2.2.2.2.2.2.2.1

theorem ca_some_nextId (st : MPool) (b : Nat) :
    (mpool_cluster_alloc st (some b)).2.nextId = st.nextId + 1 :=
  (mpool_cluster_alloc_some_spec st b).2.2.2.2.2.2.2.2.2

theorem mpool_alloc_far_preserved (st : MPool) (n : Nat) :
    (mpool_alloc_far st n).2.acquireAttempts = st.acquireAttempts
    ∧ (mpool_alloc_far st n).2.clusters = st.clusters
    ∧ (mpool_alloc_far st n).2.clusters_allocated = st.clusters_allocated
    ∧ (mpool_alloc_far st n).2.released = st.released
    ∧ (mpool_alloc_far st n).2.linger_cluster = st.linger_cluster
    ∧ (mpool_alloc_far st n).2.elements_free = st.elements_free
    ∧ (mpool_alloc_far st n).2.elements_per_cluster = st.elements_per_cluster
    ∧ (mpool_alloc_far st n).2.live = st.live
    ∧ (mpool_alloc_far st n).2.nextId = st.nextId := by
  unfold mpool_alloc_far
  cases hf : (st.freelists (allocFarBucket st n)).find?
      (fun r => decide (n ≤ (getSlot st r).nelements)) with
  | none => simp [hf]
  | some r =>
    simp only [hf]
    split_ifs <;>
      simp [mpool_freellist_insert, bucketPushTail, bucketUnlink, updateBucket,
        llistInitSlot, setNelements, setBitAt, setLastFirst, clearBitAt,
        updateSlot, updateCluster]

theorem mpool_alloc_tail_preserved (st : MPool) :
    (mpool_alloc_tail st).2.acquireAttempts = st.acquireAttempts
    ∧ (mpool_alloc_tail st).2.clusters = st.clusters
    ∧ (mpool_alloc_tail st).2.clusters_allocated = st.clusters_allocated
    ∧ (mpool_alloc_tail st).2.released = st.released
    ∧ (mpool_alloc_tail st).2.linger_cluster = st.linger_cluster
    ∧ (mpool_alloc_tail st).2.elements_per_cluster = st.elements_per_cluster
    ∧ (mpool_alloc_tail st).2.nextId = st.nextId := by
  have hp := mpool_alloc_far_preserved st 1
  simp only [mpool_alloc_tail]
  cases ho : (mpool_alloc_far st 1).1 with
  | none =>
    simp only [ho]
    exact ⟨hp.1, hp.2.1, hp.2.2.1, hp.2.2.2.1, hp.2.2.2.2.1, hp.2.2.2.2.2.2.1,
      hp.2.2.2.2.2.2.2.2⟩
  | some r =>
    simp only [ho]
    exact ⟨hp.1, hp.2.1, hp.2.2.1, hp.2.2.2.1, hp.2.2.2.2.1, hp.2.2.2.2.2.2.1,
      hp.2.2.2.2.2.2.2.2⟩

theorem tail_attempts (st : MPool) :
    (mpool_alloc_tail st).2.acquireAttempts = st.acquireAttempts :=
  (mpool_alloc_tail_preserved st).1

theorem tail_clusters (st : MPool) : (mpool_alloc_tail st).2.clusters = st.clusters :=
  (mpool_alloc_tail_preserved st).2.1

theorem tail_ca (st : MPool) :
    (mpool_alloc_tail st).2.clusters_allocated = st.clusters_allocated :=
  (mpool_alloc_tail_preserved st).2.2.1

theorem tail_released (st : MPool) : (mpool_alloc_tail st).2.released = st.released :=
  (mpool_alloc_tail_preserved st).2.2.2.1

theorem mpool_alloc_effects (st : MPool) (near mem : Option Nat) :
    List.IsSuffix st.clusters (mpool_alloc st near mem).2.clusters
    ∧ st.clusters_allocated ≤ (mpool_alloc st near mem).2.clusters_allocated
    ∧ (mpool_alloc st near mem).2.released = st.released := by
  simp only [mpool_alloc]
  by_cases ht : st.elements_free = 0
      ∨ (near = none ∧ st.elements_free < st.elements_per_cluster / 2)
  · rw [if_pos ht]
    cases mem with
    | none =>
      rw [mpool_cluster_alloc_none]
      simp only [Bool.false_eq_true, if_false]
      split_ifs
      · exact ⟨List.suffix_refl _, le_refl _, rfl⟩
      · rw [tail_clusters, tail_ca, tail_released]
        exact ⟨List.suffix_refl _, le_refl _, rfl⟩
    | some b =>
      rw [ca_some_fst, if_pos rfl, tail_clusters, tail_ca, tail_released,
        ca_some_clusters, ca_some_ca, ca_some_released]
      exact ⟨List.suffix_cons _ _, Nat.le_succ _, rfl⟩
  · rw [if_neg ht, tail_clusters, tail_ca, tail_released]
    exact ⟨List.suffix_refl _, le_refl _, rfl⟩

/-- The state a `mpool_reserve` outcome leaves behind (the in-place state at
return time, whichever way the C function returned). -/
def reserveOut : ReserveResult → MPool
  | .ok st => st
  | .failed st => st
  | .outOfMem st => st

theorem mpool_reserve_effects (n : Nat) :
    ∀ (mems : List (Option Nat)) (st : MPool),
    List.IsSuffix st.clusters (reserveOut (mpool_reserve n st mems)).clusters
    ∧ st.clusters_allocated ≤ (reserveOut (mpool_reserve n st mems)).clusters_allocated
    ∧ (reserveOut (mpool_reserve n st mems)).released = st.released := by
  intro mems
  induction mems with
  | nil =>
    intro st
    simp only [mpool_reserve]
    split_ifs <;> exact ⟨List.suffix_refl _, le_refl _, rfl⟩
  | cons m rest ih =>
    intro st
    simp only [mpool_reserve]
    by_cases h : st.elements_free < n
    · rw [if_pos h]
      cases m with
      | none =>
        rw [mpool_cluster_alloc_none]
        simp only [Bool.false_eq_true, if_false]
        exact ⟨List.suffix_refl _, le_refl _, rfl⟩
      | some b =>
        rw [ca_some_fst, if_pos rfl]
        have hi := ih (mpool_cluster_alloc st (some b)).2
        refine ⟨?_, ?_, ?_⟩
        · exact List.IsSuffix.trans (ca_some_clusters st b ▸ List.suffix_cons _ _) hi.1
        · have h2 := hi.2.1
          rw [ca_some_ca] at h2
          omega
        · rw [hi.2.2, ca_some_released]
    · rw [if_neg h]
      exact ⟨List.suffix_refl _, le_refl _, rfl⟩

/-- A sequence element for claim C9: one public mutating call between `init`
and `destroy` (`alloc` with its hint and `malloc` outcome, `free` with its
address, `reserve` with its quota and `malloc` outcomes). -/
inductive PoolOp where
  | opAlloc (near mem : Option Nat)
  | opFree (element : Nat)
  | opReserve (n : Nat) (mems : List (Option Nat))

/-- Run one public operation for its state effect. -/
def runOp (st : MPool) : PoolOp → MPool
  | .opAlloc near mem => (mpool_alloc st near mem).2
  | .opFree e => mpool_free_go st e
  | .opReserve n mems => reserveOut (mpool_reserve n st mems)

/-- Run a sequence of public operations. -/
def runOps (st : MPool) (ops : List PoolOp) : MPool := ops.foldl runOp st

theorem runOp_effects (st : MPool) (op : PoolOp) :
    List.IsSuffix st.clusters (runOp st op).clusters
    ∧ st.clusters_allocated ≤ (runOp st op).clusters_allocated
    ∧ (runOp st op).released = st.released := by
  cases op with
  | opAlloc near mem => exact mpool_alloc_effects st near mem
  | opFree e =>
    have h := mpool_free_go_preserved st e
    refine ⟨?_, le_of_eq h.2.2.2.1.symm, h.2.1⟩
    rw [show (runOp st (.opFree e)).clusters = st.clusters from h.2.2.1]
  | opReserve n mems => exact mpool_reserve_effects n mems st

theorem freellistBucketLoop_spec (L : Nat) :
    ∀ (fuel i : Nat), i + fuel = MPOOL_BUCKETS - 1 →
      i ≤ freellistBucketLoop L fuel i
      ∧ freellistBucketLoop L fuel i ≤ MPOOL_BUCKETS - 1
      ∧ (freellistBucketLoop L fuel i < MPOOL_BUCKETS - 1 →
          L ≤ 2 ^ freellistBucketLoop L fuel i)
      ∧ (i < freellistBucketLoop L fuel i → 2 ^ (freellistBucketLoop L fuel i - 1) < L) := by
  intro fuel
  induction fuel with
  | zero =>
    intro i hi
    simp only [freellistBucketLoop]
    exact ⟨le_refl _, by omega, (fun h => absurd h (by omega)),
      (fun h => absurd h (lt_irrefl _))⟩
  | succ fuel ih =>
    intro i hi
    simp only [freellistBucketLoop]
    split_ifs with hcond
    · have hrec := ih (i + 1) (by omega)
      refine ⟨by omega, hrec.2.1, hrec.2.2.1, fun h => ?_⟩
      by_cases hj : i + 1 < freellistBucketLoop L fuel (i + 1)
      · exact hrec.2.2.2 hj
      · have hj1 : freellistBucketLoop L fuel (i + 1) = i + 1 := by
          have := hrec.1
          omega
        rw [hj1]
        simpa [Nat.one_shiftLeft] using hcond.1
    · refine ⟨le_refl _, by omega, fun h => ?_, (fun h => absurd h (lt_irrefl _))⟩
      rw [Nat.one_shiftLeft] at hcond
      exact Nat.le_of_not_lt (fun hlt => hcond ⟨hlt, h⟩)

theorem freellistBucket_le (L : Nat) : freellistBucket L ≤ MPOOL_BUCKETS - 1 :=
  (freellistBucketLoop_spec L (MPOOL_BUCKETS - 1) 0 (by omega)).2.1

theorem freellistBucket_spec (L : Nat) (hL : 1 ≤ L) :
    freellistBucket L ≤ MPOOL_BUCKETS - 1
    ∧ (freellistBucket L = 0 → L = 1)
    ∧ (1 ≤ freellistBucket L → 2 ^ (freellistBucket L - 1) < L)
    ∧ (freellistBucket L < MPOOL_BUCKETS - 1 → L ≤ 2 ^ freellistBucket L) := by
  unfold freellistBucket
  have h := freellistBucketLoop_spec L (MPOOL_BUCKETS - 1) 0 (by omega)
  refine ⟨h.2.1, fun h0 => ?_, fun h1 => h.2.2.2 (by omega), h.2.2.1⟩
  have h2 := h.2.2.1 (by rw [h0]; simp [MPOOL_BUCKETS])
  rw [h0] at h2
  simpa using Nat.le_antisymm h2 hL

theorem freellist_insert_shape (st : MPool) (r : Nat × Nat) :
    (∀ j, (mpool_freellist_insert st r).freelists j
      = if j = freellistBucket (getSlot st r).nelements then st.freelists j ++ [r]
        else st.freelists j) := by
  intro j
  unfold mpool_freellist_insert bucketPushTail updateBucket llistInitSlot updateSlot updateCluster
  simp

/-- For a single-slot request the far-scan loop stops at the first non-empty
bucket, or at the last bucket. -/
theorem allocFarBucketLoop_spec (st : MPool) :
    ∀ (fuel i : Nat), i + fuel = MPOOL_BUCKETS - 1 →
      (∀ k, i ≤ k → k < allocFarBucketLoop st 1 fuel i → st.freelists k = [])
      ∧ i ≤ allocFarBucketLoop st 1 fuel i
      ∧ allocFarBucketLoop st 1 fuel i ≤ MPOOL_BUCKETS - 1
      ∧ (st.freelists (allocFarBucketLoop st 1 fuel i) = [] →
          allocFarBucketLoop st 1 fuel i = MPOOL_BUCKETS - 1) := by
  intro fuel
  induction fuel with
  | zero =>
    intro i hi
    simp only [allocFarBucketLoop]
    exact ⟨(fun k h1 h2 => absurd (lt_of_le_of_lt h1 h2) (lt_irrefl _)),
      le_refl _, by omega, fun _ => by omega⟩
  | succ fuel ih =>
    intro i hi
    simp only [allocFarBucketLoop]
    split_ifs with hcond
    · have hrec := ih (i + 1) (by omega)
      refine ⟨fun k h1 h2 => ?_, by omega, hrec.2.2.1, hrec.2.2.2⟩
      rcases Nat.eq_or_lt_of_le h1 with heq | hlt
      · subst heq
        rcases hcond.1 with hsh | hemp
        · exact absurd hsh (by simp [Nat.one_shiftLeft])
        · exact List.isEmpty_iff.mp hemp
      · exact hrec.1 k hlt h2
    · refine ⟨(fun k h1 h2 => absurd (lt_of_le_of_lt h1 h2) (lt_irrefl _)),
        le_refl _, by omega, fun hemp => ?_⟩
      by_contra hne
      exact hcond ⟨Or.inr (List.isEmpty_iff.mpr hemp), by omega⟩

theorem allocFarBucket_one_spec (st : MPool) :
    (∀ k, k < allocFarBucket st 1 → st.freelists k = [])
    ∧ allocFarBucket st 1 ≤ MPOOL_BUCKETS - 1
    ∧ (st.freelists (allocFarBucket st 1) = [] →
        allocFarBucket st 1 = MPOOL_BUCKETS - 1) := by
  unfold allocFarBucket
  have h := allocFarBucketLoop_spec st (MPOOL_BUCKETS - 1) 0 (by omega)
  exact ⟨fun k hk => h.1 k (Nat.zero_le _) hk, h.2.2.1, h.2.2.2⟩

/-- When every linked node has a positive stored run length and some bucket is
non-empty, `mpool_alloc_far` with `n = 1` finds a node. -/
theorem mpool_alloc_far_one_success (st : MPool)
    (h1 : ∀ i ∈ List.range MPOOL_BUCKETS, ∀ r ∈ st.freelists i,
            1 ≤ (getSlot st r).nelements)
    (h2 : ∃ i ∈ List.range MPOOL_BUCKETS, st.freelists i ≠ []) :
    (mpool_alloc_far st 1).1.isSome = true := by
  have hs := allocFarBucket_one_spec st
  have hne : st.freelists (allocFarBucket st 1) ≠ [] := by
    intro hemp
    have h7 := hs.2.2 hemp
    obtain ⟨i, hi, hnei⟩ := h2
    rw [List.mem_range] at hi
    rcases Nat.lt_or_ge i (MPOOL_BUCKETS - 1) with hlt | hge
    · exact hnei (hs.1 i (by omega))
    · have hieq : i = MPOOL_BUCKETS - 1 := by
        simp only [MPOOL_BUCKETS] at *
        omega
      rw [hieq] at hnei
      rw [h7] at hemp
      exact hnei hemp
  unfold mpool_alloc_far
  cases hfind : (st.freelists (allocFarBucket st 1)).find?
      (fun r => decide (1 ≤ (getSlot st r).nelements)) with
  | none =>
    exfalso
    rw [List.find?_eq_none] at hfind
    obtain ⟨x, hx⟩ := List.exists_mem_of_ne_nil _ hne
    have hnel := h1 (allocFarBucket st 1)
      (List.mem_range.mpr (by have := hs.2.1; simp only [MPOOL_BUCKETS] at *; omega)) x hx
    exact hfind x hx (by simpa using hnel)
  | some r =>
    simp only [hfind]
    split_ifs <;> simp

/-- `mpool_alloc` returns null exactly when `mpool_alloc_far` found nothing. -/
theorem mpool_alloc_tail_fst (st : MPool) :
    ((mpool_alloc_tail st).1 = none ↔ (mpool_alloc_far st 1).1 = none) := by
  simp only [mpool_alloc_tail]
  cases ho : (mpool_alloc_far st 1).1 with
  | none => simp [ho]
  | some r => simp [ho]

theorem ca_some_freelists (st : MPool) (b : Nat) (j : Nat) :
    (mpool_cluster_alloc st (some b)).2.freelists j
      = if j = freellistBucket st.elements_per_cluster
        then st.freelists j ++ [(st.nextId, 0)]
        else st.freelists j := by
  unfold mpool_cluster_alloc mpool_freellist_insert bucketPushTail updateBucket llistInitSlot
    setNelements setLastFirst setLastNullTrue setBitAt updateSlot updateCluster getSlot
  simp

theorem ca_some_getSlot_old (st : MPool) (b : Nat) (r : Nat × Nat)
    (hne : r.1 ≠ st.nextId) :
    getSlot (mpool_cluster_alloc st (some b)).2 r = getSlot st r := by
  unfold mpool_cluster_alloc mpool_freellist_insert bucketPushTail updateBucket llistInitSlot
    setNelements setLastFirst setLastNullTrue setBitAt updateSlot updateCluster getSlot
  simp [hne]

theorem ca_some_getSlot_new (st : MPool) (b : Nat) :
    (getSlot (mpool_cluster_alloc st (some b)).2 (st.nextId, 0)).nelements
      = st.elements_per_cluster := by
  unfold mpool_cluster_alloc mpool_freellist_insert bucketPushTail updateBucket llistInitSlot
    setNelements setLastFirst setLastNullTrue setBitAt updateSlot updateCluster getSlot
  simp

/-- Well-formedness of the free-list state, as the spec's invariants entail
between public operations: every linked node is a first-slot overlay with a
positive stored run length belonging to an already-allocated cluster id, and
a positive free counter implies some bucket is non-empty. -/
def wfPool (st : MPool) : Prop :=
  (∀ i ∈ List.range MPOOL_BUCKETS, ∀ r ∈ st.freelists i,
      1 ≤ (getSlot st r).nelements ∧ r.1 < st.nextId)
  ∧ (1 ≤ st.elements_free → ∃ i ∈ List.range MPOOL_BUCKETS, st.freelists i ≠ [])

instance (st : MPool) : Decidable (wfPool st) := by
  unfold wfPool
  infer_instance

theorem wf_after_cluster_alloc (st : MPool) (b : Nat)
    (hwf : wfPool st) (hepc : 1 ≤ st.elements_per_cluster) :
    (∀ i ∈ List.range MPOOL_BUCKETS,
        ∀ r ∈ (mpool_cluster_alloc st (some b)).2.freelists i,
        1 ≤ (getSlot (mpool_cluster_alloc st (some b)).2 r).nelements)
    ∧ (∃ i ∈ List.range MPOOL_BUCKETS,
        (mpool_cluster_alloc st (some b)).2.freelists i ≠ []) := by
  constructor
  · intro i hi r hr
    rw [ca_some_freelists] at hr
    have hold : r ∈ st.freelists i →
        1 ≤ (getSlot (mpool_cluster_alloc st (some b)).2 r).nelements := by
      intro hmem
      have h := hwf.1 i hi r hmem
      rw [ca_some_getSlot_old st b r (by omega)]
      exact h.1
    by_cases hb : i = freellistBucket st.elements_per_cluster
    · rw [if_pos hb] at hr
      rcases List.mem_append.mp hr with hr | hr
      · exact hold hr
      · rw [List.mem_singleton] at hr
        subst hr
        rw [ca_some_getSlot_new]
        exact hepc
    · rw [if_neg hb] at hr
      exact hold hr
  · refine ⟨freellistBucket st.elements_per_cluster, List.mem_range.mpr ?_, ?_⟩
    · have := freellistBucket_le st.elements_per_cluster
      simp only [MPOOL_BUCKETS] at *
      omega
    · rw [ca_some_freelists, if_pos rfl]
      simp

/-- Concrete input for claims about `alloc` and `reserve`: a freshly
initialised two-slot pool. -/
def stC4 : MPool := mpool_init emptyPool 16 2 none

/-- Concrete input for the reserve witness: a freshly initialised
one-slot pool. -/
def stC6 : MPool := mpool_init emptyPool 16 1 none

/-! ## Claim theorems -/

/-- C1: counterexample evaluation.  After `init(elem 16, 2 slots)`, one
`alloc` and one `free`, no slot is live, so the single maximal free run spans
both slots and the claim demands exactly bits 0 and 1 set (bitmap 3 = 2+1);
the code's bitmap is 2 (only bit 1): `mpool_free` pushes the slot onto bucket
0 without restoring any endpoint bit (its `//TODO: coalesce`), so the claimed
invariant is violated after a public `free`. -/
theorem C1_free_breaks_endpoint_bitmap :
    trC1.live = [] ∧ trC1.elements_per_cluster = 2
    ∧ clusterBitmap trC1 0 = 2
    ∧ claimEndpointBitmap (ghostFreeSlot trC1 0) trC1.elements_per_cluster = 3
    ∧ clusterBitmap trC1 0 ≠ claimEndpointBitmap (ghostFreeSlot trC1 0) trC1.elements_per_cluster := by
  decide

/-- C2: evaluation of the claim's scenario (`slots_per_cluster = 32000`,
`alloc; alloc; free(e2); free(e1)`).  The free count and cluster count match
the claim, but the bitmap has bits 2 and 31999 set — not bits 0 and 31999 —
because the two frees do not coalesce: the remaining run `[2..31999]` keeps
its endpoint bits and the freed slots 0, 1 set no bit at all. -/
theorem C2_no_coalescing_on_free :
    mpool_available trC2 = 32000 ∧ trC2.clusters = [0] ∧ trC2.clusters_allocated = 1
    ∧ clusterBitmap trC2 0 = 2 ^ 2 + 2 ^ 31999
    ∧ clusterBitmap trC2 0 ≠ 2 ^ 0 + 2 ^ 31999 := by
  simp only [pow_two_eq_shiftLeft]
  decide

/-- C3: `mpool_free` never touches the linger slot, never unlinks a cluster
and never releases memory — in any state; and in the concrete trace where a
free has just restored the only cluster (one slot per cluster) to
entirely-free, the linger slot still holds nothing, the cluster stays in the
list and nothing was released, contradicting the claimed retirement. -/
theorem C3_free_never_retires_clusters :
    (∀ st addr, (mpool_free_go st addr).linger_cluster = st.linger_cluster
      ∧ (mpool_free_go st addr).released = st.released
      ∧ (mpool_free_go st addr).clusters = st.clusters)
    ∧ trC3.live = [] ∧ mpool_available trC3 = 1 ∧ trC3.elements_per_cluster = 1
    ∧ trC3.linger_cluster = none ∧ trC3.clusters = [0] ∧ trC3.released = [] := by
  refine ⟨fun st addr => ?_, by decide, by decide, by decide, by decide, by decide, by decide⟩
  obtain ⟨h1, h2, h3, -⟩ := mpool_free_go_preserved st addr
  exact ⟨h1, h2, h3⟩

/-- C5: counterexample.  After one allocation from a fresh 4-slot cluster the
remaining run of length 3 is reinserted into bucket 2, but the claim's bound
`2^i ≤ L` demands `4 ≤ 3` for bucket 2 — false.  The code's loop picks the
smallest `i` with `2^i ≥ L` (capped), i.e. `2^(i-1) < L ≤ 2^i`, not
`2^i ≤ L < 2^(i+1)`. -/
theorem C5_run_of_length_3_in_bucket_2 :
    trC5.freelists 2 = [(0, 1)] ∧ (getSlot trC5 (0, 1)).nelements = 3
    ∧ ¬ (2 ^ 2 ≤ (getSlot trC5 (0, 1)).nelements) := by
  decide

/-- C7: counterexample.  For the one-slot pool at base 500 with
`cluster_size = 48`, the address `500 + 48` is exactly `base + cluster_size`:
the claim (half-open range) demands the lookup reject it, but
`cmp_cluster_contains_element` uses `element > cluster + cluster_size` and so
accepts the closed range — the lookup attributes the address to cluster 0. -/
theorem C7_lookup_accepts_end_address :
    trC7.cluster_size = 48
    ∧ mpool_element_get_cluster trC7 (500 + 48) = some 0
    ∧ specHalfOpenGetCluster trC7 (500 + 48) = none := by
  decide

/-- C8: `mpool_init` rounds the element size to the larger of the
word-aligned free-slot-overlay size and the next word multiple, computes
`cluster_size = header + bitmap_bytes + elem_size * slots`, zeroes both
counters and empties every bucket and the cluster list. -/
theorem C8_init_geometry (st : MPool) (e epc : Nat) (d : Option Nat) :
    (mpool_init st e epc d).elem_size = spec_elem_size e
    ∧ (mpool_init st e epc d).cluster_size = spec_cluster_size e epc
    ∧ (mpool_init st e epc d).elements_free = 0
    ∧ (mpool_init st e epc d).clusters_allocated = 0
    ∧ (mpool_init st e epc d).clusters = []
    ∧ ∀ i, (mpool_init st e epc d).freelists i = [] := by
  have he : (mpool_init st e epc d).elem_size = spec_elem_size e := by
    simp only [mpool_init, spec_elem_size, mpoolnodeSize, wordSize]
    split_ifs <;> omega
  refine ⟨he, ?_, rfl, rfl, rfl, fun i => rfl⟩
  calc (mpool_init st e epc d).cluster_size
      = clusterHeaderSize + MPOOL_BITMAP_SIZE epc + (mpool_init st e epc d).elem_size * epc := rfl
    _ = spec_cluster_size e epc := by
        rw [he, MPOOL_BITMAP_SIZE_eq_spec, spec_cluster_size]

/-- C10: a null pool handle makes `init`, `destroy` and `reserve` return null
with no effect, and `free` with a null pool handle or a null element
reference does nothing. -/
theorem C10_null_handles :
    (∀ e epc d, mpool_init_opt none e epc d = none)
    ∧ mpool_destroy_opt none = none
    ∧ (∀ n mems, mpool_reserve_opt none n mems = none)
    ∧ (∀ el, mpool_free_opt none el = none)
    ∧ (∀ st, mpool_free_opt (some st) none = some st) := by
  refine ⟨fun _ _ _ => rfl, rfl, fun _ _ => rfl, fun el => ?_, fun st => rfl⟩
  cases el <;> rfl

/-- C4: on a well-formed pool with at least one slot per cluster,
`mpool_alloc` consults the cluster allocator exactly when the free count is
zero or (no hint and free count below half a cluster), and returns absent
exactly when the pool had no free slot and no new cluster could be acquired. -/
theorem C4_alloc_contract (st : MPool) (near mem : Option Nat)
    (hwf : wfPool st) (hepc : 1 ≤ st.elements_per_cluster) :
    ((mpool_alloc st near mem).2.acquireAttempts
      = st.acquireAttempts
        + (if st.elements_free = 0
              ∨ (near = none ∧ st.elements_free < st.elements_per_cluster / 2)
           then 1 else 0))
    ∧ ((mpool_alloc st near mem).1 = none ↔ (st.elements_free = 0 ∧ mem = none)) := by
  have hfar_st : 1 ≤ st.elements_free → (mpool_alloc_far st 1).1.isSome = true := by
    intro hfree
    exact mpool_alloc_far_one_success st (fun i hi r hr => (hwf.1 i hi r hr).1) (hwf.2 hfree)
  simp only [mpool_alloc]
  by_cases ht : st.elements_free = 0
      ∨ (near = none ∧ st.elements_free < st.elements_per_cluster / 2)
  · rw [if_pos ht, if_pos ht]
    cases mem with
    | none =>
      rw [mpool_cluster_alloc_none]
      simp only [Bool.false_eq_true, if_false]
      by_cases h0 : st.elements_free = 0
      · rw [if_pos h0]
        exact ⟨rfl, by simp [h0]⟩
      · rw [if_neg h0]
        constructor
        · rw [tail_attempts]
        · rw [mpool_alloc_tail_fst]
          have hsucc : (mpool_alloc_far
                { st with acquireAttempts := st.acquireAttempts + 1 } 1).1.isSome = true :=
            mpool_alloc_far_one_success _ (fun i hi r hr => (hwf.1 i hi r hr).1)
              (hwf.2 (by omega))
          constructor
          · intro hnone
            rw [hnone] at hsucc
            exact absurd hsucc (by simp)
          · intro hc
            exact absurd hc.1 h0
    | some b =>
      rw [ca_some_fst, if_pos rfl]
      constructor
      · rw [tail_attempts, ca_some_attempts]
      · rw [mpool_alloc_tail_fst]
        have hw := wf_after_cluster_alloc st b hwf hepc
        have hsucc := mpool_alloc_far_one_success _ hw.1 hw.2
        constructor
        · intro hnone
          rw [hnone] at hsucc
          exact absurd hsucc (by simp)
        · intro hc
          exact absurd hc.2 (by simp)
  · rw [if_neg ht, if_neg ht]
    have h0 : ¬ st.elements_free = 0 := fun h => ht (Or.inl h)
    constructor
    · rw [tail_attempts]
      omega
    · rw [mpool_alloc_tail_fst]
      have hsucc := hfar_st (by omega)
      constructor
      · intro hnone
        rw [hnone] at hsucc
        exact absurd hsucc (by simp)
      · intro hc
        exact absurd hc.1 h0

/-- C4 witness: the contract applied to a fresh two-slot pool with no hint
and a failing cluster acquisition. -/
theorem C4_witness :
    wfPool stC4
    ∧ 1 ≤ stC4.elements_per_cluster
    ∧ (((mpool_alloc stC4 none none).2.acquireAttempts
        = stC4.acquireAttempts
          + (if stC4.elements_free = 0
                ∨ ((none : Option Nat) = none
                    ∧ stC4.elements_free < stC4.elements_per_cluster / 2)
             then 1 else 0))
      ∧ ((mpool_alloc stC4 none none).1 = none
          ↔ (stC4.elements_free = 0 ∧ (none : Option Nat) = none))) :=
  ⟨by decide, by decide, C4_alloc_contract stC4 none none (by decide) (by decide)⟩

/-- C5 (amended): `mpool_freellist_insert` appends a node with stored run
length `L ≥ 1` to the tail of bucket `i = freellistBucket L`, leaving the
other buckets alone, where `i` is the smallest index with `L ≤ 2^i`, capped
at the last bucket: `L = 1` for `i = 0`, `2^(i-1) < L` for `i ≥ 1`,
`L ≤ 2^i` below the last bucket, and the last bucket is the catch-all for
every `L > 2^(B-2)`. -/
theorem C5_bucket_bounds (st : MPool) (r : Nat × Nat)
    (hL : 1 ≤ (getSlot st r).nelements) :
    ((mpool_freellist_insert st r).freelists (freellistBucket (getSlot st r).nelements)
        = st.freelists (freellistBucket (getSlot st r).nelements) ++ [r])
    ∧ (∀ j, j ≠ freellistBucket (getSlot st r).nelements →
        (mpool_freellist_insert st r).freelists j = st.freelists j)
    ∧ freellistBucket (getSlot st r).nelements ≤ MPOOL_BUCKETS - 1
    ∧ (freellistBucket (getSlot st r).nelements = 0 → (getSlot st r).nelements = 1)
    ∧ (1 ≤ freellistBucket (getSlot st r).nelements →
        2 ^ (freellistBucket (getSlot st r).nelements - 1) < (getSlot st r).nelements)
    ∧ (freellistBucket (getSlot st r).nelements < MPOOL_BUCKETS - 1 →
        (getSlot st r).nelements ≤ 2 ^ freellistBucket (getSlot st r).nelements) := by
  have hs := freellistBucket_spec (getSlot st r).nelements hL
  refine ⟨?_, fun j hj => ?_, hs.1, hs.2.1, hs.2.2.1, hs.2.2.2⟩
  · rw [freellist_insert_shape st r, if_pos rfl]
  · rw [freellist_insert_shape st r, if_neg hj]

/-- C5 witness: the amended placement law applied to the length-3 run left in
the four-slot trace. -/
theorem C5_witness :
    1 ≤ (getSlot trC5 (0, 1)).nelements
    ∧ (((mpool_freellist_insert trC5 (0, 1)).freelists
          (freellistBucket (getSlot trC5 (0, 1)).nelements)
        = trC5.freelists (freellistBucket (getSlot trC5 (0, 1)).nelements) ++ [(0, 1)])
      ∧ (∀ j, j ≠ freellistBucket (getSlot trC5 (0, 1)).nelements →
          (mpool_freellist_insert trC5 (0, 1)).freelists j = trC5.freelists j)
      ∧ freellistBucket (getSlot trC5 (0, 1)).nelements ≤ MPOOL_BUCKETS - 1
      ∧ (freellistBucket (getSlot trC5 (0, 1)).nelements = 0 →
          (getSlot trC5 (0, 1)).nelements = 1)
      ∧ (1 ≤ freellistBucket (getSlot trC5 (0, 1)).nelements →
          2 ^ (freellistBucket (getSlot trC5 (0, 1)).nelements - 1)
            < (getSlot trC5 (0, 1)).nelements)
      ∧ (freellistBucket (getSlot trC5 (0, 1)).nelements < MPOOL_BUCKETS - 1 →
          (getSlot trC5 (0, 1)).nelements
            ≤ 2 ^ freellistBucket (getSlot trC5 (0, 1)).nelements)) :=
  ⟨by decide, C5_bucket_bounds trC5 (0, 1) (by decide)⟩

/-- C6: if `mpool_reserve` succeeds the free count meets the quota, and if it
fails on a cluster-acquisition failure, every cluster acquired earlier in the
same call stays linked (the old cluster list is a suffix of the new one) and
each contributes its full slot count to the free count — no rollback. -/
theorem C6_reserve_contract :
    ∀ (mems : List (Option Nat)) (n : Nat) (st st' : MPool),
    (mpool_reserve n st mems = .ok st' → n ≤ mpool_available st')
    ∧ (mpool_reserve n st mems = .failed st' →
        List.IsSuffix st.clusters st'.clusters
        ∧ mpool_available st' = mpool_available st
            + st.elements_per_cluster * (st'.clusters.length - st.clusters.length)) := by
  intro mems
  induction mems with
  | nil =>
    intro n st st'
    simp only [mpool_reserve, mpool_available]
    by_cases h : st.elements_free < n
    · rw [if_pos h]
      exact ⟨(fun he => nomatch he), (fun he => nomatch he)⟩
    · rw [if_neg h]
      refine ⟨fun he => ?_, (fun he => nomatch he)⟩
      injection he with h'
      subst h'
      omega
  | cons m rest ih =>
    intro n st st'
    simp only [mpool_reserve, mpool_available] at *
    by_cases h : st.elements_free < n
    · rw [if_pos h]
      cases m with
      | none =>
        rw [mpool_cluster_alloc_none]
        simp only [Bool.false_eq_true, if_false]
        refine ⟨(fun he => nomatch he), fun he => ?_⟩
        injection he with h'
        subst h'
        exact ⟨List.suffix_refl _, by simp⟩
      | some b =>
        rw [ca_some_fst, if_pos rfl]
        have hi := ih n (mpool_cluster_alloc st (some b)).2 st'
        refine ⟨hi.1, fun he => ?_⟩
        obtain ⟨hs, hv⟩ := hi.2 he
        rw [ca_some_clusters] at hs hv
        rw [ca_some_free, ca_some_epc] at hv
        simp only [List.length_cons] at hv
        have hlen : st.clusters.length + 1 ≤ st'.clusters.length := by
          have := hs.length_le
          simpa using this
        refine ⟨List.IsSuffix.trans (List.suffix_cons _ _) hs, ?_⟩
        obtain ⟨k0, hk0⟩ : ∃ k0, st'.clusters.length - st.clusters.length = k0 + 1 :=
          ⟨st'.clusters.length - st.clusters.length - 1, by omega⟩
        have h2 : st'.clusters.length - (st.clusters.length + 1) = k0 := by omega
        rw [hv, h2, hk0, Nat.mul_succ]
        ring
    · rw [if_neg h]
      refine ⟨fun he => ?_, (fun he => nomatch he)⟩
      injection he with h'
      subst h'
      omega

/-- C6 witness: reserving one slot on a fresh one-slot pool with one
successful acquisition meets the quota. -/
theorem C6_witness :
    mpool_reserve 1 stC6 [some 100]
      = ReserveResult.ok (reserveOut (mpool_reserve 1 stC6 [some 100]))
    ∧ 1 ≤ mpool_available (reserveOut (mpool_reserve 1 stC6 [some 100])) :=
  ⟨rfl, (C6_reserve_contract [some 100] 1 stC6
    (reserveOut (mpool_reserve 1 stC6 [some 100]))).1 rfl⟩

/-- C7 (amended): an address is attributed to a cluster exactly when it lies
in the CLOSED byte range `[base, base + cluster_size]` of some cluster in the
list (the comparator uses `>`, so `base + cluster_size` itself is accepted),
and `mpool_free` on an address in no cluster's closed range only flags the
assertion. -/
theorem C7_closed_range_lookup (st : MPool) (addr : Nat) :
    ((mpool_element_get_cluster st addr).isSome = true
      ↔ ∃ cid ∈ st.clusters, ∃ c, st.store cid = some c
          ∧ c.base ≤ addr ∧ addr ≤ c.base + st.cluster_size)
    ∧ (mpool_element_get_cluster st addr = none →
        mpool_free_go st addr = { st with assertFailed := true }) := by
  constructor
  · rw [mpool_element_get_cluster, List.find?_isSome]
    constructor
    · rintro ⟨cid, hmem, hp⟩
      refine ⟨cid, hmem, ?_⟩
      cases hs : st.store cid with
      | none => rw [hs] at hp; simp at hp
      | some c =>
        rw [hs] at hp
        simp only [cluster_contains_element, Bool.and_eq_true, decide_eq_true_eq] at hp
        exact ⟨c, rfl, hp.1, hp.2⟩
    · rintro ⟨cid, hmem, c, hs, h1, h2⟩
      refine ⟨cid, hmem, ?_⟩
      rw [hs]
      simp only [cluster_contains_element, Bool.and_eq_true, decide_eq_true_eq]
      exact ⟨h1, h2⟩
  · intro h
    simp only [mpool_free_go, h]

/-- C7 witness: address 0 lies below the only cluster's base, the lookup
rejects it, and `mpool_free` on it only flags the assertion. -/
theorem C7_witness :
    mpool_element_get_cluster trC7 0 = none
    ∧ mpool_free_go trC7 0 = { trC7 with assertFailed := true } :=
  ⟨by decide, (C7_closed_range_lookup trC7 0).2 (by decide)⟩

/-- C9: over any sequence of `alloc`, `free` and `reserve` calls, the cluster
count never decreases, every cluster stays linked (the old cluster list is a
suffix of the new one) and nothing is released to the host heap. -/
theorem C9_clusters_only_grow (st : MPool) (ops : List PoolOp) :
    List.IsSuffix st.clusters (runOps st ops).clusters
    ∧ st.clusters_allocated ≤ (runOps st ops).clusters_allocated
    ∧ (runOps st ops).released = st.released := by
  induction ops generalizing st with
  | nil => exact ⟨List.suffix_refl _, le_refl _, rfl⟩
  | cons op ops ih =>
    have h1 := runOp_effects st op
    have h2 := ih (runOp st op)
    exact ⟨h1.1.trans h2.1, le_trans h1.2.1 h2.2.1, h2.2.2.trans h1.2.2⟩

end Mpool
